import Mathlib

/-!
# rubinius `machine/state.cpp`: the per-thread context `State`

A shallow embedding of `src/machine/state.cpp`.  `State` is a thin facade: every
member function forwards to an object reached through `vm_` (the thread's own
VM) or through `shared_.machine()` (the one `Machine` of the process).

Pointers are addresses (`Ptr`), and the objects they point to live in a `World`
(process memory) that is passed explicitly through every operation.  The
classes the facade forwards to (`Machine`, `Memory`, `SymbolTable`, `VM`,
`ThreadState`, `Park`, `ThreadNexus`, `Location`, `Exception`) are declared in
headers that are not part of `src/`; their members that `state.cpp` touches are
modelled below, each marked as such.
-/

namespace rubinius

/-! ## Data model -/

/-- A machine address: the value of a C++ pointer. -/
abbrev Ptr := Nat

/-- One `char` of a buffer. -/
abbrev Byte := Fin 256

/-- The record `Machine` as `state.cpp` reads it: the five accessors
`configuration()`, `thread_nexus()`, `machine_threads()`, `collector()` and
`memory()` each return a pointer held by the machine. -/
structure Machine where
  configuration : Ptr
  thread_nexus : Ptr
  machine_threads : Ptr
  collector : Ptr
  memory : Ptr
deriving DecidableEq

/-- The member `shared_` of `State`; `machine()` yields the `Machine*`. -/
structure SharedState where
  machine : Ptr
deriving DecidableEq

/-- The class `State`: `vm_` points to the VM of the thread that owns this
context, `shared_` is the shared runtime. -/
structure State where
  vm_ : Ptr
  shared_ : SharedState
deriving DecidableEq

/-- An interned token; it is the position of its byte sequence in the table. -/
structure Symbol where
  index : Nat
deriving DecidableEq

/-- Modelled from the spec: the process-wide interned-string registry
(`SymbolTable`, whose source is not in `src/`).  It holds the byte sequence of
every symbol created so far, in creation order; symbols are never reclaimed. -/
structure SymbolTable where
  strings : List (List Byte)
deriving DecidableEq

/-- A frame of a thread's call stack (`call_frame.hpp` is not in `src/`; the
facade never reads inside a frame, so a frame is an identifying token). -/
structure CallFrame where
  frame_id : Nat
deriving DecidableEq

/-- A reference to an object of a managed heap: the `Memory` that holds it and
its position in that heap. -/
structure ObjRef where
  mem : Ptr
  idx : Nat
deriving DecidableEq

/-- An `Exception` object as `raise_stack_error` uses it: its class and its
`locations` slot (empty until `locations(state, value)` is called). -/
structure Exception where
  klass : Ptr
  locations : Option (List CallFrame)
deriving DecidableEq

/-- The member `globals` of `Memory`: `stack_error` is the well-known class. -/
structure Globals where
  stack_error : Ptr
deriving DecidableEq

/-- The object `Memory` as `state.cpp` uses it: `globals`, `symbols`, and the
heap that `new_object` allocates in. -/
structure Memory where
  globals : Globals
  symbols : SymbolTable
  objects : List Exception
deriving DecidableEq

/-- The object returned by `vm_->thread_state()`: the pending-fault slot. -/
structure ThreadState where
  pending_fault : Option ObjRef
deriving DecidableEq

/-- The object `VM` of one runtime thread as `state.cpp` uses it:
`thread_state()`, the member `park_`, and the thread's call stack (innermost
frame first). -/
structure VM where
  thread_state : ThreadState
  park_ : Ptr
  call_stack : List CallFrame
deriving DecidableEq

/-- The per-thread states of the pause protocol. -/
inductive ThreadPhase where
  | Starting
  | Running
  | Parked
  | ParkedTimed
  | SuspendedForPause
  | Exited
deriving DecidableEq

/-- A registered thread as the coordinator sees it. -/
structure RuntimeThread where
  identity : Ptr
  phase : ThreadPhase
deriving DecidableEq

/-- Modelled from the spec: the safepoint coordinator (`ThreadNexus`, whose
source is not in `src/`): the registered threads in insertion order, the
`Epoch` counter, the pause-pending flag and the request token. -/
structure ThreadNexus where
  threads : List RuntimeThread
  epoch : Nat
  pause_pending : Bool
  request_token : Nat
deriving DecidableEq

/-- Process memory: the objects behind every pointer. -/
structure World where
  machines : Ptr → Machine
  memories : Ptr → Memory
  vms : Ptr → VM
  nexuses : Ptr → ThreadNexus

/-- A Ruby `String` object handed to `symbol(String*)`: its bytes, all
`byte_size()` of them. -/
structure String where
  bytes : List Byte
deriving DecidableEq

/-! ## C library -/

/-- The C function `strlen` on the buffer starting at `str`: the number of
bytes before the first null byte.  The list holds the contents of the buffer,
null bytes inside it included; the null byte that ends the buffer follows the
last listed byte and is not listed, so a list without a null byte has its own
length as `strlen`. -/
def strlen : List Byte → Nat
  | [] => 0
  | c :: cs => if c = 0 then 0 else strlen cs + 1

/-! ## SymbolTable -/

/-- The position of the first entry equal to `key` (the number of entries when
there is none). -/
def position (key : List Byte) : List (List Byte) → Nat
  | [] => 0
  | k :: ks => if k = key then 0 else position key ks + 1

/-- Modelled from the spec: `lookup(bytes)` of `SymbolTable` (not in `src/`):
returns the existing Symbol for an equal byte sequence or creates and inserts a
new one. -/
def SymbolTable.lookup_bytes (t : SymbolTable) (key : List Byte) : Symbol × SymbolTable :=
  if key ∈ t.strings then (⟨position key t.strings⟩, t)
  else (⟨t.strings.length⟩, ⟨t.strings ++ [key]⟩)

/-- Modelled from the spec: `SymbolTable::lookup(STATE, const char*, size_t)`
(not in `src/`); the key is the `length` bytes starting at `str`, whatever
their values (the buffer holds at least `length` bytes). -/
def SymbolTable.lookup (t : SymbolTable) (_state : State) (str : List Byte) (length : Nat) :
    Symbol × SymbolTable :=
  t.lookup_bytes (str.take length)

/-- Modelled from the spec: `SymbolTable::lookup(STATE, std::string)` (not in
`src/`); the key is the string's bytes, all `size()` of them. -/
def SymbolTable.lookup_std_string (t : SymbolTable) (_state : State) (str : List Byte) :
    Symbol × SymbolTable :=
  t.lookup_bytes str

/-- Modelled from the spec: `SymbolTable::lookup(STATE, String*)` (not in
`src/`); the key is the object's bytes, all `byte_size()` of them. -/
def SymbolTable.lookup_String (t : SymbolTable) (_state : State) (str : String) :
    Symbol × SymbolTable :=
  t.lookup_bytes str.bytes

/-! ## State: accessors -/

/-- The accessor `State::configuration`. -/
def State.configuration (s : State) (w : World) : Ptr :=
  (w.machines s.shared_.machine).configuration

/-- The accessor `State::thread_nexus`. -/
def State.thread_nexus (s : State) (w : World) : Ptr :=
  (w.machines s.shared_.machine).thread_nexus

/-- The accessor `State::machine_threads`. -/
def State.machine_threads (s : State) (w : World) : Ptr :=
  (w.machines s.shared_.machine).machine_threads

/-- The accessor `State::collector`. -/
def State.collector (s : State) (w : World) : Ptr :=
  (w.machines s.shared_.machine).collector

/-- The accessor `State::memory`. -/
def State.memory (s : State) (w : World) : Ptr :=
  (w.machines s.shared_.machine).memory

/-- The accessor `State::globals`: `memory()->globals`. -/
def State.globals (s : State) (w : World) : Globals :=
  (w.memories (s.memory w)).globals

/-! ## State: symbols -/

/-- Write the table back into `memory()->symbols`. -/
def World.set_symbols (w : World) (m : Ptr) (t : SymbolTable) : World :=
  { w with memories := Function.update w.memories m { w.memories m with symbols := t } }

/-- The overload `State::symbol(const char* str)`:
`memory()->symbols.lookup(this, str, strlen(str))`. -/
def State.symbol (s : State) (w : World) (str : List Byte) : Symbol × World :=
  let r := (w.memories (s.memory w)).symbols.lookup s str (strlen str)
  (r.1, w.set_symbols (s.memory w) r.2)

/-- The overload `State::symbol(const char* str, size_t len)`:
`memory()->symbols.lookup(this, str, len)`. -/
def State.symbol_len (s : State) (w : World) (str : List Byte) (len : Nat) : Symbol × World :=
  let r := (w.memories (s.memory w)).symbols.lookup s str len
  (r.1, w.set_symbols (s.memory w) r.2)

/-- The overload `State::symbol(std::string str)`:
`memory()->symbols.lookup(this, str)`. -/
def State.symbol_std_string (s : State) (w : World) (str : List Byte) : Symbol × World :=
  let r := (w.memories (s.memory w)).symbols.lookup_std_string s str
  (r.1, w.set_symbols (s.memory w) r.2)

/-- The overload `State::symbol(String* str)`:
`memory()->symbols.lookup(this, str)`. -/
def State.symbol_String (s : State) (w : World) (str : String) : Symbol × World :=
  let r := (w.memories (s.memory w)).symbols.lookup_String s str
  (r.1, w.set_symbols (s.memory w) r.2)

/-! ## State: raising the stack error -/

/-- Modelled from the spec: `Memory::new_object<Exception>(STATE, Class*)` (not
in `src/`; the spec's `allocate(ctx, class) -> object`): a new object of the
given class, with nothing attached, placed at the end of the heap.  Returns
the position of the new object and the heap after the allocation. -/
def Memory.new_object (mem : Memory) (_state : State) (klass : Ptr) : Nat × Memory :=
  (mem.objects.length, { mem with objects := mem.objects ++ [⟨klass, none⟩] })

/-- Modelled from the spec: the setter `Exception::locations(STATE, value)`
(not in `src/`): attaches the captured frames to the exception. -/
def Exception.set_locations (exc : Exception) (_state : State) (value : List CallFrame) :
    Exception :=
  { exc with locations := some value }

/-- Modelled from the spec: `Location::from_call_stack(STATE)` (not in `src/`;
the spec's `capture_call_stack(ctx) -> ordered sequence of frames`): the frames
of the call stack of the thread that owns `state`, in call-stack order. -/
def Location.from_call_stack (state : State) (w : World) : List CallFrame :=
  (w.vms state.vm_).call_stack

/-- Modelled from the spec: `ThreadState::raise_exception(exc)` (not in
`src/`): stores the exception in the pending-fault slot. -/
def ThreadState.raise_exception (ts : ThreadState) (exc : ObjRef) : ThreadState :=
  { ts with pending_fault := some exc }

/-- Replace the object `Memory` at address `m`. -/
def World.set_memory (w : World) (m : Ptr) (mem : Memory) : World :=
  { w with memories := Function.update w.memories m mem }

/-- The object behind a reference, when the reference is live. -/
def World.object (w : World) (r : ObjRef) : Option Exception :=
  (w.memories r.mem).objects[r.idx]?

/-- Apply a member function that mutates the object behind `r`. -/
def World.modify_object (w : World) (r : ObjRef) (f : Exception → Exception) : World :=
  match w.object r with
  | some e => w.set_memory r.mem
      { w.memories r.mem with objects := (w.memories r.mem).objects.set r.idx (f e) }
  | none => w

/-- Apply a member function that mutates the `ThreadState` of the VM at `vm`. -/
def World.modify_thread_state (w : World) (vm : Ptr) (f : ThreadState → ThreadState) : World :=
  { w with vms := Function.update w.vms vm { w.vms vm with thread_state := f (w.vms vm).thread_state } }

/-- The member function `State::raise_stack_error`, statement by statement:
```
Class* stack_error = globals().stack_error.get();
Exception* exc = memory()->new_object<Exception>(this, stack_error);
exc->locations(this, Location::from_call_stack(this));
vm_->thread_state()->raise_exception(exc);
``` -/
def State.raise_stack_error (s : State) (w : World) : World :=
  let stack_error := (s.globals w).stack_error
  let r := (w.memories (s.memory w)).new_object s stack_error
  let exc : ObjRef := ⟨s.memory w, r.1⟩
  let w1 := w.set_memory (s.memory w) r.2
  let w2 := w1.modify_object exc (fun e => e.set_locations s (Location.from_call_stack s w1))
  w2.modify_thread_state s.vm_ (fun ts => ts.raise_exception exc)

/-! ## State: parking -/

/-- The argument `struct timespec*` of `park_timed`. -/
structure Timespec where
  tv_sec : Int
  tv_nsec : Int
deriving DecidableEq

/-- The two member functions of the class `Park` that `State` forwards to
(`park.hpp` is not in `src/`).  They are parameters of the embedding: the
receiver is the `Park*`, the result type `ρ` stands for whatever the call
yields (its returned `Object*` together with its effects). -/
structure ParkOps (ρ : Type) where
  park : Ptr → State → World → ρ
  park_timed : Ptr → State → Timespec → World → ρ

/-- The member function `State::park(STATE)`: `vm_->park_->park(this)`. -/
def State.park {ρ : Type} (P : ParkOps ρ) (s : State) (_state : State) (w : World) : ρ :=
  P.park (w.vms s.vm_).park_ s w

/-- The member function `State::park_timed(STATE, struct timespec* ts)`:
`vm_->park_->park_timed(this, ts)`. -/
def State.park_timed {ρ : Type} (P : ParkOps ρ) (s : State) (_state : State) (ts : Timespec)
    (w : World) : ρ :=
  P.park_timed (w.vms s.vm_).park_ s ts w

/-! ## ThreadNexus: resuming after a pause -/

/-- Modelled from the spec: the condition `wait_for_all_paused` waits for (not
in `src/`): every registered thread is SuspendedForPause or Exited. -/
def ThreadNexus.all_paused (n : ThreadNexus) : Bool :=
  n.threads.all (fun t => t.phase = .SuspendedForPause ∨ t.phase = .Exited)

/-- Modelled from the spec: `resume_all()` of the coordinator (not in `src/`):
every SuspendedForPause thread goes back to Running and Epoch is incremented
by exactly 1. -/
def ThreadNexus.resume_all (n : ThreadNexus) : ThreadNexus :=
  { n with
    threads := n.threads.map
      (fun t => if t.phase = .SuspendedForPause then { t with phase := .Running } else t)
    epoch := n.epoch + 1 }

/-- Call `resume_all()` on the coordinator at address `nexus`. -/
def World.resume_all (w : World) (nexus : Ptr) : World :=
  { w with nexuses := Function.update w.nexuses nexus (w.nexuses nexus).resume_all }

/-! ## Reference points for the symbol claims -/

/-- The table a context reaches through `memory()->symbols`. -/
def State.symbols (s : State) (w : World) : SymbolTable :=
  (w.memories (s.memory w)).symbols

/-- Looking a symbol up under the byte sequence `key`, all `key.length` bytes
of it, in `memory()->symbols`: the reference the `symbol` overloads are
compared with. -/
def State.symbol_under_key (s : State) (w : World) (key : List Byte) : Symbol × World :=
  let r := (w.memories (s.memory w)).symbols.lookup_bytes key
  (r.1, w.set_symbols (s.memory w) r.2)

/-- A run of `symbol(str, len)` calls made one after another through the same
context; the result is the world after the last call. -/
def State.symbol_len_calls (s : State) (w : World) : List (List Byte × Nat) → World
  | [] => w
  | c :: rest => State.symbol_len_calls s (s.symbol_len w c.1 c.2).2 rest

/-! ## Concrete inputs -/

/-- A context of thread 0 on machine 0. -/
def sample_state : State := ⟨0, ⟨0⟩⟩

/-- A context of thread 1 on the same machine 0. -/
def sample_state_other : State := ⟨1, ⟨0⟩⟩

/-- A world with one machine whose memory is at address 5; the symbol table
already holds `"a"` and `"a\0b"`, thread 0 is three frames deep, thread 1 has a
fault pending. -/
def sample_world : World where
  machines := fun _ => ⟨1, 2, 3, 4, 5⟩
  memories := fun _ => ⟨⟨7⟩, ⟨[[97], [97, 0, 98]]⟩, [⟨9, none⟩]⟩
  vms := fun t =>
    if t = 0 then ⟨⟨none⟩, 11, [⟨30⟩, ⟨20⟩, ⟨10⟩]⟩ else ⟨⟨some ⟨5, 0⟩⟩, 12, [⟨40⟩]⟩
  nexuses := fun _ => ⟨[⟨0, .SuspendedForPause⟩, ⟨1, .Exited⟩, ⟨2, .SuspendedForPause⟩], 4, true, 1⟩

/-! ## Basic facts about the world updates -/

@[simp]
theorem World.set_memory_memories_same (w : World) (m : Ptr) (mem : Memory) :
    (w.set_memory m mem).memories m = mem := by
  simp [World.set_memory]

@[simp]
theorem World.set_memory_vms (w : World) (m : Ptr) (mem : Memory) :
    (w.set_memory m mem).vms = w.vms := rfl

@[simp]
theorem World.set_memory_machines (w : World) (m : Ptr) (mem : Memory) :
    (w.set_memory m mem).machines = w.machines := rfl

@[simp]
theorem World.set_memory_nexuses (w : World) (m : Ptr) (mem : Memory) :
    (w.set_memory m mem).nexuses = w.nexuses := rfl

@[simp]
theorem World.modify_object_vms (w : World) (r : ObjRef) (f : Exception → Exception) :
    (w.modify_object r f).vms = w.vms := by
  unfold World.modify_object; split <;> rfl

@[simp]
theorem World.modify_object_machines (w : World) (r : ObjRef) (f : Exception → Exception) :
    (w.modify_object r f).machines = w.machines := by
  unfold World.modify_object; split <;> rfl

@[simp]
theorem World.modify_object_nexuses (w : World) (r : ObjRef) (f : Exception → Exception) :
    (w.modify_object r f).nexuses = w.nexuses := by
  unfold World.modify_object; split <;> rfl

@[simp]
theorem World.modify_thread_state_memories (w : World) (vm : Ptr)
    (f : ThreadState → ThreadState) : (w.modify_thread_state vm f).memories = w.memories := rfl

@[simp]
theorem World.modify_thread_state_machines (w : World) (vm : Ptr)
    (f : ThreadState → ThreadState) : (w.modify_thread_state vm f).machines = w.machines := rfl

@[simp]
theorem World.modify_thread_state_nexuses (w : World) (vm : Ptr)
    (f : ThreadState → ThreadState) : (w.modify_thread_state vm f).nexuses = w.nexuses := rfl

theorem World.modify_thread_state_vms_same (w : World) (vm : Ptr)
    (f : ThreadState → ThreadState) :
    (w.modify_thread_state vm f).vms vm = { w.vms vm with thread_state := f (w.vms vm).thread_state } := by
  simp [World.modify_thread_state]

theorem World.modify_thread_state_vms_other (w : World) (vm t : Ptr)
    (f : ThreadState → ThreadState) (h : t ≠ vm) :
    (w.modify_thread_state vm f).vms t = w.vms t := by
  simp [World.modify_thread_state, Function.update_noteq h]

/-- The world just before `raise_stack_error` stores the fault: the exception
has been allocated and its locations attached. -/
theorem State.raise_stack_error_before_store (s : State) (w : World) :
    let exc : ObjRef := ⟨s.memory w, (w.memories (s.memory w)).objects.length⟩
    ∃ w2 : World,
      s.raise_stack_error w = w2.modify_thread_state s.vm_ (fun ts => ts.raise_exception exc) ∧
      w2.vms = w.vms ∧ w2.machines = w.machines ∧ w2.nexuses = w.nexuses ∧
      w2.object exc = some ⟨(s.globals w).stack_error, some (w.vms s.vm_).call_stack⟩ := by
  refine ⟨_, rfl, ?_, ?_, ?_, ?_⟩
  · simp
  · simp
  · simp
  · simp [World.object, World.modify_object, Memory.new_object, Exception.set_locations,
      Location.from_call_stack]

/-! ## Claims about `raise_stack_error` -/

/-- C1: after `s.raise_stack_error()` the pending-fault slot of the VM of `s`
holds a reference `exc` such that (i) `exc` was no object of the heap before
the call and is now an object whose class is `globals().stack_error`, and
(ii) its locations are exactly what `Location::from_call_stack` captures from
`s`; the world in which the fault is stored already has the locations
attached (`w2` is the world just before the store). -/
theorem raise_stack_error_stores_fault (s : State) (w : World) :
    let exc : ObjRef := ⟨s.memory w, (w.memories (s.memory w)).objects.length⟩
    let w' := s.raise_stack_error w
    (w'.vms s.vm_).thread_state.pending_fault = some exc ∧
    w.object exc = none ∧
    w'.object exc = some ⟨(s.globals w).stack_error, some (Location.from_call_stack s w)⟩ ∧
    ∃ w2 : World,
      w' = w2.modify_thread_state s.vm_ (fun ts => ts.raise_exception exc) ∧
      w2.object exc = some ⟨(s.globals w).stack_error, some (Location.from_call_stack s w)⟩ ∧
      (w2.vms s.vm_).thread_state = (w.vms s.vm_).thread_state := by
  intro exc w'
  obtain ⟨w2, hw, hvms, _, _, hobj⟩ := State.raise_stack_error_before_store s w
  have hw' : w' = w2.modify_thread_state s.vm_ (fun ts => ts.raise_exception exc) := hw
  refine ⟨?_, ?_, ?_, w2, hw', hobj, by rw [hvms]⟩
  · rw [hw', World.modify_thread_state_vms_same]
    rfl
  · simp [World.object, exc]
  · rw [hw']
    exact hobj

/-- C4: the fault stored by `raise_stack_error` carries the frames of the
caller's call stack, in call-stack order, so the number of captured frames is
the call depth at the time of the call. -/
theorem raise_stack_error_frame_count (s : State) (w : World) :
    let w' := s.raise_stack_error w
    ∃ exc e, (w'.vms s.vm_).thread_state.pending_fault = some exc ∧
      w'.object exc = some e ∧
      e.locations = some (w.vms s.vm_).call_stack ∧
      e.locations.map List.length = some (w.vms s.vm_).call_stack.length ∧
      (w'.vms s.vm_).call_stack = (w.vms s.vm_).call_stack := by
  intro w'
  obtain ⟨w2, hw, hvms, _, _, hobj⟩ := State.raise_stack_error_before_store s w
  have hw' : w' = w2.modify_thread_state s.vm_ _ := hw
  refine ⟨⟨s.memory w, (w.memories (s.memory w)).objects.length⟩,
    ⟨(s.globals w).stack_error, some (w.vms s.vm_).call_stack⟩, ?_, ?_, rfl, rfl, ?_⟩
  · rw [hw', World.modify_thread_state_vms_same]
    rfl
  · rw [hw']
    exact hobj
  · rw [hw', World.modify_thread_state_vms_same, hvms]

/-- C5: `raise_stack_error` leaves every other thread as it was: the VM of
every thread other than the caller (its pending-fault slot, park gate and call
stack) is unchanged, and so are the coordinator's records of every thread and
the machines; of the caller's own VM only the pending-fault slot changes. -/
theorem raise_stack_error_other_threads (s : State) (w : World) (t : Ptr) (h : t ≠ s.vm_) :
    let w' := s.raise_stack_error w
    w'.vms t = w.vms t ∧
    (w'.vms t).thread_state.pending_fault = (w.vms t).thread_state.pending_fault ∧
    w'.nexuses = w.nexuses ∧
    w'.machines = w.machines ∧
    (w'.vms s.vm_).park_ = (w.vms s.vm_).park_ ∧
    (w'.vms s.vm_).call_stack = (w.vms s.vm_).call_stack := by
  intro w'
  obtain ⟨w2, hw, hvms, hmach, hnex, _⟩ := State.raise_stack_error_before_store s w
  have hw' : w' = w2.modify_thread_state s.vm_ _ := hw
  have hother : w'.vms t = w.vms t := by
    rw [hw', World.modify_thread_state_vms_other _ _ _ _ h, hvms]
  refine ⟨hother, by rw [hother], ?_, ?_, ?_, ?_⟩
  · rw [hw', World.modify_thread_state_nexuses, hnex]
  · rw [hw', World.modify_thread_state_machines, hmach]
  · rw [hw', World.modify_thread_state_vms_same, hvms]
  · rw [hw', World.modify_thread_state_vms_same, hvms]

/-- Witness for C5: thread 0 raises, thread 1 keeps its VM. -/
theorem raise_stack_error_other_threads_witness :
    (1 : Ptr) ≠ sample_state.vm_ ∧
    ((sample_state.raise_stack_error sample_world).vms 1 = sample_world.vms 1 ∧
     ((sample_state.raise_stack_error sample_world).vms 1).thread_state.pending_fault
        = (sample_world.vms 1).thread_state.pending_fault ∧
     (sample_state.raise_stack_error sample_world).nexuses = sample_world.nexuses ∧
     (sample_state.raise_stack_error sample_world).machines = sample_world.machines ∧
     ((sample_state.raise_stack_error sample_world).vms sample_state.vm_).park_
        = (sample_world.vms sample_state.vm_).park_ ∧
     ((sample_state.raise_stack_error sample_world).vms sample_state.vm_).call_stack
        = (sample_world.vms sample_state.vm_).call_stack) :=
  ⟨by decide, raise_stack_error_other_threads sample_state sample_world 1 (by decide)⟩

/-! ## Claims about parking -/

/-- C9: `park` and `park_timed` ignore their explicit `STATE` argument: whatever
the park gate does, `s.park(a)` and `s.park(b)` are both the gate's `park`
applied to the receiver `s` on the gate `vm_->park_` of `s`, and likewise
`park_timed` with `ts` passed through unchanged. -/
theorem park_ignores_state_argument {ρ : Type} (P : ParkOps ρ) (s a b : State) (ts : Timespec)
    (w : World) :
    s.park P a w = P.park (w.vms s.vm_).park_ s w ∧
    s.park P b w = P.park (w.vms s.vm_).park_ s w ∧
    s.park_timed P a ts w = P.park_timed (w.vms s.vm_).park_ s ts w ∧
    s.park_timed P b ts w = P.park_timed (w.vms s.vm_).park_ s ts w :=
  ⟨rfl, rfl, rfl, rfl⟩

/-! ## Claims about the accessors -/

/-- C10: two contexts with the same `shared_` get the identical handle from
`configuration()`, `thread_nexus()`, `machine_threads()`, `collector()` and
`memory()`, each a field of the one machine `shared_.machine()`; `globals()`
is the `globals` of the memory at `memory()`; and every `symbol` overload
looks up in, and writes back to, the `symbols` of the memory at `memory()`. -/
theorem accessors_project_shared_machine (s1 s2 : State) (w : World)
    (h : s1.shared_ = s2.shared_) :
    (s1.configuration w = s2.configuration w ∧
     s1.thread_nexus w = s2.thread_nexus w ∧
     s1.machine_threads w = s2.machine_threads w ∧
     s1.collector w = s2.collector w ∧
     s1.memory w = s2.memory w) ∧
    (s1.configuration w = (w.machines s1.shared_.machine).configuration ∧
     s1.thread_nexus w = (w.machines s1.shared_.machine).thread_nexus ∧
     s1.machine_threads w = (w.machines s1.shared_.machine).machine_threads ∧
     s1.collector w = (w.machines s1.shared_.machine).collector ∧
     s1.memory w = (w.machines s1.shared_.machine).memory) ∧
    (s1.globals w = (w.memories (s1.memory w)).globals ∧
     s2.globals w = (w.memories (s1.memory w)).globals) ∧
    (∀ (str : List Byte) (len : Nat) (obj : String),
      s2.symbol w str =
        (((w.memories (s1.memory w)).symbols.lookup s2 str (strlen str)).1,
          w.set_symbols (s1.memory w)
            ((w.memories (s1.memory w)).symbols.lookup s2 str (strlen str)).2) ∧
      s2.symbol_len w str len =
        (((w.memories (s1.memory w)).symbols.lookup s2 str len).1,
          w.set_symbols (s1.memory w) ((w.memories (s1.memory w)).symbols.lookup s2 str len).2) ∧
      s2.symbol_std_string w str =
        (((w.memories (s1.memory w)).symbols.lookup_std_string s2 str).1,
          w.set_symbols (s1.memory w)
            ((w.memories (s1.memory w)).symbols.lookup_std_string s2 str).2) ∧
      s2.symbol_String w obj =
        (((w.memories (s1.memory w)).symbols.lookup_String s2 obj).1,
          w.set_symbols (s1.memory w)
            ((w.memories (s1.memory w)).symbols.lookup_String s2 obj).2)) := by
  have hm : s1.memory w = s2.memory w := by simp [State.memory, h]
  refine ⟨⟨?_, ?_, ?_, ?_, hm⟩, ⟨rfl, rfl, rfl, rfl, rfl⟩, ⟨rfl, ?_⟩, ?_⟩
  · simp [State.configuration, h]
  · simp [State.thread_nexus, h]
  · simp [State.machine_threads, h]
  · simp [State.collector, h]
  · simp [State.globals, hm]
  · intro str len obj
    rw [hm]
    exact ⟨rfl, rfl, rfl, rfl⟩

/-- Witness for C10: the contexts of thread 0 and thread 1 share machine 0. -/
theorem accessors_project_shared_machine_witness :
    sample_state.shared_ = sample_state_other.shared_ ∧
    sample_state.configuration sample_world = sample_state_other.configuration sample_world ∧
    sample_state.memory sample_world = sample_state_other.memory sample_world :=
  ⟨by decide,
   (accessors_project_shared_machine sample_state sample_state_other sample_world
      (by decide)).1.1,
   (accessors_project_shared_machine sample_state sample_state_other sample_world
      (by decide)).1.2.2.2.2⟩

/-! ## Claims about the coordinator -/

/-- C7: on the coordinator that `State::thread_nexus()` returns, after a
completed pause (every registered thread SuspendedForPause or Exited),
`resume_all()` increases Epoch by exactly 1, keeps the registered threads and
their order, moves every SuspendedForPause thread to Running, leaves every
other thread as it was, and so leaves every thread Running or Exited. -/
theorem resume_all_epoch_and_running (s : State) (w : World)
    (h : (w.nexuses (s.thread_nexus w)).all_paused = true) :
    let n := w.nexuses (s.thread_nexus w)
    let n' := (w.resume_all (s.thread_nexus w)).nexuses (s.thread_nexus w)
    n'.epoch = n.epoch + 1 ∧
    n'.threads.map (fun t => t.identity) = n.threads.map (fun t => t.identity) ∧
    (∀ (i : Nat) (t : RuntimeThread), n.threads[i]? = some t →
      t.phase = .SuspendedForPause → n'.threads[i]? = some { t with phase := .Running }) ∧
    (∀ (i : Nat) (t : RuntimeThread), n.threads[i]? = some t →
      t.phase ≠ .SuspendedForPause → n'.threads[i]? = some t) ∧
    (∀ t ∈ n'.threads, t.phase = .Running ∨ t.phase = .Exited) := by
  intro n n'
  have hn' : n' = n.resume_all := by
    simp [n', n, World.resume_all]
  refine ⟨?_, ?_, ?_, ?_, ?_⟩
  · rw [hn']; rfl
  · rw [hn']
    simp only [ThreadNexus.resume_all, List.map_map]
    apply List.map_congr_left
    intro t _
    by_cases ht : t.phase = .SuspendedForPause <;> simp [ht]
  · intro i t hi ht
    rw [hn']
    simp [ThreadNexus.resume_all, List.getElem?_map, hi, ht]
  · intro i t hi ht
    rw [hn']
    simp [ThreadNexus.resume_all, List.getElem?_map, hi, ht]
  · intro t ht
    rw [hn'] at ht
    simp only [ThreadNexus.resume_all, List.mem_map] at ht
    obtain ⟨t0, ht0, rfl⟩ := ht
    have hp : t0.phase = .SuspendedForPause ∨ t0.phase = .Exited := by
      have := List.all_eq_true.mp h t0 ht0
      simpa using this
    rcases hp with hp | hp
    · simp [hp]
    · simp [hp]

/-- Witness for C7: the coordinator of the sample world has completed a pause
at Epoch 4. -/
theorem resume_all_epoch_and_running_witness :
    (sample_world.nexuses (sample_state.thread_nexus sample_world)).all_paused = true ∧
    ((sample_world.resume_all (sample_state.thread_nexus sample_world)).nexuses
        (sample_state.thread_nexus sample_world)).epoch = 4 + 1 ∧
    ∀ t ∈ ((sample_world.resume_all (sample_state.thread_nexus sample_world)).nexuses
        (sample_state.thread_nexus sample_world)).threads,
      t.phase = .Running ∨ t.phase = .Exited :=
  ⟨by decide,
   (resume_all_epoch_and_running sample_state sample_world (by decide)).1,
   (resume_all_epoch_and_running sample_state sample_world (by decide)).2.2.2.2⟩

/-! ## Facts about the symbol table -/

theorem strlen_le_length (str : List Byte) : strlen str ≤ str.length := by
  induction str with
  | nil => simp [strlen]
  | cons c cs ih =>
    by_cases hc : c = 0
    · simp [strlen, hc]
    · simp [strlen, hc, ih]

theorem take_strlen (str : List Byte) :
    str.take (strlen str) = str.takeWhile (fun c => decide (c ≠ 0)) := by
  induction str with
  | nil => simp [strlen]
  | cons c cs ih =>
    by_cases hc : c = 0
    · simp [strlen, hc, List.takeWhile]
    · simp [strlen, hc, List.takeWhile, ih]

theorem strlen_eq_length_of_no_null (str : List Byte) (h : (0 : Byte) ∉ str) :
    strlen str = str.length := by
  induction str with
  | nil => simp [strlen]
  | cons c cs ih =>
    have hc : c ≠ 0 := fun e => h (by simp [e])
    have hcs : (0 : Byte) ∉ cs := fun e => h (by simp [e])
    simp [strlen, hc, ih hcs]

theorem position_append_of_mem (k : List Byte) (l₁ l₂ : List (List Byte)) (h : k ∈ l₁) :
    position k (l₁ ++ l₂) = position k l₁ := by
  induction l₁ with
  | nil => simp at h
  | cons x xs ih =>
    by_cases hx : x = k
    · simp [position, hx]
    · have hk : k ∈ xs := by
        rcases List.mem_cons.mp h with e | e
        · exact absurd e.symm hx
        · exact e
      simp [position, hx, ih hk]

theorem position_append_of_not_mem (k : List Byte) (l₁ l₂ : List (List Byte)) (h : k ∉ l₁) :
    position k (l₁ ++ l₂) = l₁.length + position k l₂ := by
  induction l₁ with
  | nil => simp
  | cons x xs ih =>
    have hx : x ≠ k := fun e => h (by simp [e])
    have hk : k ∉ xs := fun e => h (by simp [e])
    simp [position, hx, ih hk]
    omega

theorem position_inj (a b : List Byte) (l : List (List Byte)) (ha : a ∈ l) (hb : b ∈ l)
    (h : position a l = position b l) : a = b := by
  induction l with
  | nil => simp at ha
  | cons x xs ih =>
    by_cases hxa : x = a
    · by_cases hxb : x = b
      · rw [← hxa, ← hxb]
      · rw [position, position, if_pos hxa, if_neg hxb] at h
        omega
    · by_cases hxb : x = b
      · rw [position, position, if_neg hxa, if_pos hxb] at h
        omega
      · have ha' : a ∈ xs := by
          rcases List.mem_cons.mp ha with e | e
          · exact absurd e.symm hxa
          · exact e
        have hb' : b ∈ xs := by
          rcases List.mem_cons.mp hb with e | e
          · exact absurd e.symm hxb
          · exact e
        simp [position, hxa, hxb] at h
        exact ih ha' hb' h

theorem SymbolTable.lookup_bytes_of_mem (t : SymbolTable) (key : List Byte)
    (h : key ∈ t.strings) : t.lookup_bytes key = (⟨position key t.strings⟩, t) := by
  simp [SymbolTable.lookup_bytes, h]

/-- After a lookup the key is in the table, at the position the symbol names. -/
theorem SymbolTable.lookup_bytes_result (t : SymbolTable) (key : List Byte) :
    key ∈ (t.lookup_bytes key).2.strings ∧
    (t.lookup_bytes key).1.index = position key (t.lookup_bytes key).2.strings := by
  by_cases h : key ∈ t.strings
  · simp [SymbolTable.lookup_bytes, h]
  · simp [SymbolTable.lookup_bytes, h, position_append_of_not_mem _ _ _ h, position]

/-- A lookup never moves or removes an existing entry. -/
theorem SymbolTable.lookup_bytes_keeps (t : SymbolTable) (key k : List Byte)
    (h : k ∈ t.strings) :
    k ∈ (t.lookup_bytes key).2.strings ∧
    position k (t.lookup_bytes key).2.strings = position k t.strings := by
  by_cases hk : key ∈ t.strings
  · simp [SymbolTable.lookup_bytes, hk, h]
  · simp [SymbolTable.lookup_bytes, hk, h, position_append_of_mem _ _ _ h]

@[simp]
theorem State.memory_set_symbols (s : State) (w : World) (m : Ptr) (t : SymbolTable) :
    s.memory (w.set_symbols m t) = s.memory w := rfl

@[simp]
theorem State.symbols_set_symbols (s : State) (w : World) (t : SymbolTable) :
    s.symbols (w.set_symbols (s.memory w) t) = t := by
  simp [State.symbols, World.set_symbols, State.memory]

theorem World.set_symbols_self (w : World) (m : Ptr) :
    w.set_symbols m (w.memories m).symbols = w := by
  simp [World.set_symbols]

theorem State.symbol_len_eq (s : State) (w : World) (str : List Byte) (len : Nat) :
    s.symbol_len w str len = s.symbol_under_key w (str.take len) := rfl

theorem State.symbol_under_key_eq (s : State) (w : World) (key : List Byte) :
    s.symbol_under_key w key =
      (((s.symbols w).lookup_bytes key).1, w.set_symbols (s.memory w) ((s.symbols w).lookup_bytes key).2) :=
  rfl

/-- Later `symbol(str, len)` calls keep every entry of the table in place. -/
theorem State.symbol_len_calls_keeps (s : State) (calls : List (List Byte × Nat)) :
    ∀ (w : World) (k : List Byte), k ∈ (s.symbols w).strings →
      k ∈ (s.symbols (s.symbol_len_calls w calls)).strings ∧
      position k (s.symbols (s.symbol_len_calls w calls)).strings = position k (s.symbols w).strings := by
  induction calls with
  | nil => intro w k h; exact ⟨h, rfl⟩
  | cons c rest ih =>
    intro w k h
    have hk := SymbolTable.lookup_bytes_keeps (s.symbols w) (c.1.take c.2) k h
    have hstep : s.symbols (s.symbol_len w c.1 c.2).2
        = ((s.symbols w).lookup_bytes (c.1.take c.2)).2 := by
      rw [State.symbol_len_eq, State.symbol_under_key_eq]
      simp
    have := ih (s.symbol_len w c.1 c.2).2 k (by rw [hstep]; exact hk.1)
    simp only [State.symbol_len_calls]
    refine ⟨this.1, ?_⟩
    rw [this.2, hstep, hk.2]

/-- The table after a lookup under `key` through a context, and the symbol it
returns, in terms of the table before. -/
theorem State.symbol_under_key_table (s : State) (w : World) (key : List Byte) :
    (s.symbol_under_key w key).1 = ((s.symbols w).lookup_bytes key).1 ∧
    s.symbols (s.symbol_under_key w key).2 = ((s.symbols w).lookup_bytes key).2 := by
  rw [State.symbol_under_key_eq]
  simp

/-- A lookup under a key that is already in the table returns its position and
changes nothing. -/
theorem State.symbol_under_key_of_mem (s : State) (w : World) (key : List Byte)
    (h : key ∈ (s.symbols w).strings) :
    s.symbol_under_key w key = (⟨position key (s.symbols w).strings⟩, w) := by
  rw [State.symbol_under_key_eq, SymbolTable.lookup_bytes_of_mem _ _ h]
  exact Prod.ext rfl (World.set_symbols_self w (s.memory w))

/-! ## Claims about `symbol` -/

/-- C2 (as stated, refuted): with `"a"` and `"a\0b"` both interned, in this
order, `symbol(const char*)` on the buffer `"a\0b"` returns symbol 0, the
symbol of `"a"`, while a lookup under the exact three bytes returns symbol 1:
the key of this overload stops at the first null byte. -/
theorem symbol_cstr_stops_at_first_null :
    strlen [97, 0, 98] = 1 ∧
    (sample_state.symbol sample_world [97, 0, 98]).1 = ⟨0⟩ ∧
    (sample_state.symbol_under_key sample_world [97, 0, 98]).1 = ⟨1⟩ ∧
    sample_state.symbol sample_world [97, 0, 98]
      ≠ sample_state.symbol_under_key sample_world [97, 0, 98] := by
  refine ⟨by decide, by decide, by decide, ?_⟩
  intro h
  have h1 : (sample_state.symbol sample_world [97, 0, 98]).1
      = (sample_state.symbol_under_key sample_world [97, 0, 98]).1 := by rw [h]
  revert h1
  decide

/-- C2 (amended): for every byte sequence `b`, embedded null bytes included,
`symbol(const char*, size_t)` with the full length, `symbol(std::string)` and
`symbol(String*)` look the symbol up under exactly `b`; `symbol(const char*)`
looks it up under the bytes of `b` before its first null byte, which is `b`
itself when `b` holds no null byte. -/
theorem symbol_overloads_key (s : State) (w : World) (b : List Byte) :
    s.symbol_len w b b.length = s.symbol_under_key w b ∧
    s.symbol_std_string w b = s.symbol_under_key w b ∧
    s.symbol_String w ⟨b⟩ = s.symbol_under_key w b ∧
    s.symbol w b = s.symbol_under_key w (b.takeWhile (fun c => decide (c ≠ 0))) ∧
    ((0 : Byte) ∉ b → s.symbol w b = s.symbol_under_key w b) := by
  refine ⟨?_, rfl, rfl, ?_, ?_⟩
  · rw [State.symbol_len_eq, List.take_length]
  · rw [← take_strlen]
    rfl
  · intro h
    have : s.symbol w b = s.symbol_under_key w (b.take (strlen b)) := rfl
    rw [this, strlen_eq_length_of_no_null b h, List.take_length]

/-- Witness for C2 (amended): the buffer `"ab"` has no null byte; the sequence
`"a\0b"` is looked up whole by the three length-carrying overloads. -/
theorem symbol_overloads_key_witness :
    ((0 : Byte) ∉ ([97, 98] : List Byte) ∧
      sample_state.symbol sample_world [97, 98]
        = sample_state.symbol_under_key sample_world [97, 98]) ∧
    sample_state.symbol_len sample_world [97, 0, 98] 3
      = sample_state.symbol_under_key sample_world [97, 0, 98] :=
  ⟨⟨by decide, (symbol_overloads_key sample_state sample_world [97, 98]).2.2.2.2 (by decide)⟩,
   (symbol_overloads_key sample_state sample_world [97, 0, 98]).1⟩

/-- C8: `symbol(str)` is `symbol(str, strlen(str))`; its key is the bytes of
`str` before the first null byte; so two buffers that agree up to their first
null byte get the same result from the same world, and the same Symbol when
the second is looked up after the first. -/
theorem symbol_cstr_keyed_by_strlen (s : State) (w : World) (a b : List Byte)
    (h : a.takeWhile (fun c => decide (c ≠ 0)) = b.takeWhile (fun c => decide (c ≠ 0))) :
    s.symbol w a = s.symbol_len w a (strlen a) ∧
    s.symbol w a = s.symbol_under_key w (a.takeWhile (fun c => decide (c ≠ 0))) ∧
    s.symbol w a = s.symbol w b ∧
    (s.symbol (s.symbol w a).2 b).1 = (s.symbol w a).1 := by
  have key : ∀ (w0 : World) (x : List Byte),
      s.symbol w0 x = s.symbol_under_key w0 (x.takeWhile (fun c => decide (c ≠ 0))) := by
    intro w0 x
    rw [← take_strlen]
    rfl
  refine ⟨rfl, key w a, ?_, ?_⟩
  · rw [key w a, key w b, h]
  · rw [key _ b, ← h, key w a]
    obtain ⟨h1, h2⟩ := State.symbol_under_key_table s w (a.takeWhile (fun c => decide (c ≠ 0)))
    obtain ⟨hmem, hidx⟩ :=
      SymbolTable.lookup_bytes_result (s.symbols w) (a.takeWhile (fun c => decide (c ≠ 0)))
    rw [← h2] at hmem hidx
    rw [State.symbol_under_key_of_mem _ _ _ hmem, h1]
    cases hsym : ((s.symbols w).lookup_bytes (a.takeWhile (fun c => decide (c ≠ 0)))).1 with
    | mk i =>
      rw [hsym] at hidx
      simp only at hidx
      rw [hidx]

/-- Witness for C8: the buffers `"a\0b"` and `"a\0c"` agree up to their first
null byte. -/
theorem symbol_cstr_keyed_by_strlen_witness :
    ([97, 0, 98] : List Byte).takeWhile (fun c => decide (c ≠ 0))
        = ([97, 0, 99] : List Byte).takeWhile (fun c => decide (c ≠ 0)) ∧
    sample_state.symbol sample_world [97, 0, 98] = sample_state.symbol sample_world [97, 0, 99] :=
  ⟨by decide,
   (symbol_cstr_keyed_by_strlen sample_state sample_world [97, 0, 98] [97, 0, 99]
      (by decide)).2.2.1⟩

/-- C3: through one context, `symbol(a, la)` and a later `symbol(b, lb)` (any
number of `symbol` calls in between) return the identical Symbol exactly when
the two byte sequences have the same length and the same bytes (null bytes
are bytes like any other); in that case the later call leaves the world,
and so the table, as it found it. -/
theorem symbol_len_identity (s : State) (w : World) (a b : List Byte) (la lb : Nat)
    (calls : List (List Byte × Nat)) (ha : la ≤ a.length) (hb : lb ≤ b.length) :
    let r1 := s.symbol_len w a la
    let wm := s.symbol_len_calls r1.2 calls
    let r2 := s.symbol_len wm b lb
    ((la = lb ∧ a.take la = b.take lb) → r2.1 = r1.1 ∧ r2.2 = wm ∧
        (s.symbols r2.2).strings.length = (s.symbols wm).strings.length) ∧
    (¬ (la = lb ∧ a.take la = b.take lb) → r2.1 ≠ r1.1) := by
  intro r1 wm r2
  have hr1 : r1 = s.symbol_under_key w (a.take la) := rfl
  have hr2 : r2 = s.symbol_under_key wm (b.take lb) := rfl
  obtain ⟨h1, h2⟩ := State.symbol_under_key_table s w (a.take la)
  obtain ⟨hmem, hidx⟩ := SymbolTable.lookup_bytes_result (s.symbols w) (a.take la)
  rw [← h2, ← hr1] at hmem
  rw [← h2, ← h1, ← hr1] at hidx
  obtain ⟨hmem', hpos'⟩ := State.symbol_len_calls_keeps s calls r1.2 (a.take la) hmem
  have hwm : s.symbol_len_calls r1.2 calls = wm := rfl
  rw [hwm] at hmem' hpos'
  have hsym1 : r1.1 = ⟨position (a.take la) (s.symbols wm).strings⟩ := by
    cases hs : r1.1 with
    | mk i =>
      rw [hs] at hidx
      simp only at hidx
      rw [hpos', hidx]
  constructor
  · rintro ⟨_, hab⟩
    have hres : r2 = (⟨position (a.take la) (s.symbols wm).strings⟩, wm) := by
      rw [hr2, ← hab]
      exact State.symbol_under_key_of_mem s wm _ hmem'
    refine ⟨?_, ?_, ?_⟩
    · rw [hres, hsym1]
    · rw [hres]
    · rw [hres]
  · intro hne heq
    have hkeys : a.take la ≠ b.take lb := by
      intro hab
      apply hne
      refine ⟨?_, hab⟩
      have := congrArg List.length hab
      simp only [List.length_take] at this
      omega
    obtain ⟨g1, g2⟩ := State.symbol_under_key_table s wm (b.take lb)
    obtain ⟨gmem, gidx⟩ := SymbolTable.lookup_bytes_result (s.symbols wm) (b.take lb)
    obtain ⟨kmem, kpos⟩ := SymbolTable.lookup_bytes_keeps (s.symbols wm) (b.take lb) (a.take la) hmem'
    rw [← g1, ← hr2] at gidx
    apply hkeys
    apply position_inj _ _ _ kmem gmem
    rw [kpos, ← gidx, heq, hsym1]

/-- Witness for C3: `"a\0b"` twice with a call for `"zz"` in between, and
`"a\0b"` against `"a\0c"`. -/
theorem symbol_len_identity_witness :
    (3 ≤ ([97, 0, 98] : List Byte).length ∧
      (sample_state.symbol_len
          (sample_state.symbol_len_calls
            (sample_state.symbol_len sample_world [97, 0, 98] 3).2 [([122, 122], 2)])
          [97, 0, 98] 3).1
        = (sample_state.symbol_len sample_world [97, 0, 98] 3).1) ∧
    (sample_state.symbol_len
        (sample_state.symbol_len_calls
          (sample_state.symbol_len sample_world [97, 0, 98] 3).2 [])
        [97, 0, 99] 3).1
      ≠ (sample_state.symbol_len sample_world [97, 0, 98] 3).1 :=
  ⟨⟨by decide,
    ((symbol_len_identity sample_state sample_world [97, 0, 98] [97, 0, 98] 3 3
      [([122, 122], 2)] (by decide) (by decide)).1 ⟨rfl, rfl⟩).1⟩,
   (symbol_len_identity sample_state sample_world [97, 0, 98] [97, 0, 99] 3 3
      [] (by decide) (by decide)).2 (by decide)⟩

end rubinius
